import Mathlib

/-!
Verification of the unified-routing pipeline editor and probe components of
the Cli-Proxy-API management center.

The definitions below are shallow embeddings of the TypeScript source:
pure functions over immutable values stand for the copy-then-splice array
code, machine numbers are `Nat` (all indices, levels and counts in the
source are non-negative integers), and the `Record<string, …>` state
objects are association lists.  Nondeterminism (worker-pool completion
order, `crypto.randomUUID()`) is abstracted by explicit parameters.
-/

/-! ## Definitions -/

/-- A pipeline target: a (credential, model) pair.  Mirrors the `Target`
shape used throughout the source; `weight` is an optional field (the
target editor stores `weight > 1 ? weight : undefined` and reads it back
as `target.weight || 1`). -/
structure Target where
  id : String
  credential_id : String
  model : String
  weight : Option Nat := none
  enabled : Bool
deriving DecidableEq, Repr

/-- The effective weight of a target, following the source's
`target.weight || 1` reading (absent weight means 1). -/
def Target.effectiveWeight (t : Target) : Nat :=
  t.weight.getD 1

/-- A fallback layer: level, strategy and an ordered target list. -/
structure Layer where
  level : Nat
  strategy : String
  targets : List Target
deriving DecidableEq, Repr

/-- A route's pipeline. -/
structure Pipeline where
  route_id : String
  layers : List Layer
deriving DecidableEq, Repr

/-- A source/destination position for a target drag, as in
`RouteCard.tsx` (`interface TargetDropPos`). -/
structure TargetDropPos where
  layerIdx : Nat
  targetIdx : Nat
deriving DecidableEq, Repr

/-- Embedding of `reorderTargets` (`RouteCard.tsx`).  The JS code deep-copies
the layer list, splices the source target out, computes the insertion index
(decrementing for a same-layer forward move, then clamping with
`Math.max(0, Math.min(insertIdx, dstLayer.targets.length))`), and splices the
item back in; every failure branch returns the original `layers`.  The
second lookup re-reads the list after the removal, which reproduces the JS
aliasing between `srcLayer` and `dstLayer` when both indices coincide. -/
def reorderTargets (layers : List Layer) (src dst : TargetDropPos) : List Layer :=
  if src.layerIdx = dst.layerIdx ∧ src.targetIdx = dst.targetIdx then layers
  else
    match layers[src.layerIdx]?, layers[dst.layerIdx]? with
    | some srcLayer, some _ =>
      match srcLayer.targets[src.targetIdx]? with
      | none => layers
      | some item =>
        let afterRemove :=
          layers.set src.layerIdx
            { srcLayer with targets := srcLayer.targets.eraseIdx src.targetIdx }
        match afterRemove[dst.layerIdx]? with
        | none => layers
        | some dstLayer =>
          let insertPos :=
            if src.layerIdx = dst.layerIdx ∧ src.targetIdx < dst.targetIdx then
              dst.targetIdx - 1
            else dst.targetIdx
          afterRemove.set dst.layerIdx
            { dstLayer with
                targets :=
                  dstLayer.targets.insertIdx (min insertPos dstLayer.targets.length) item }
    | _, _ => layers

/-- Embedding of the indexed map `newLayers.map((layer, i) => ({ ...layer,
level: i + 1 }))` in `finishLayerDrag` (`RouteCard.tsx`): reassigns
`level = position + 1` along the list, starting at position `i`. -/
def reindexLevels : Nat → List Layer → List Layer
  | _, [] => []
  | i, l :: ls => { l with level := i + 1 } :: reindexLevels (i + 1) ls

/-- Embedding of the layer-move transformation inside `finishLayerDrag`
(`RouteCard.tsx`): copy the level-sorted layer list, splice the source
layer out, splice it back in at the destination (JS `splice` clamps the
start index to the array length), and reindex every level to
position + 1.  The surrounding handler only fires with a source index
drawn from the sorted view and with `src ≠ dst`. -/
def finishLayerDrag (sortedLayers : List Layer) (srcIdx dstIdx : Nat) : List Layer :=
  match sortedLayers[srcIdx]? with
  | none => sortedLayers
  | some moved =>
    let removed := sortedLayers.eraseIdx srcIdx
    reindexLevels 0 (removed.insertIdx (min dstIdx removed.length) moved)

-- Sample targets for concrete evaluations.
def tA : Target := { id := "A", credential_id := "c1", model := "m1", enabled := true }

def tB : Target := { id := "B", credential_id := "c2", model := "m2", enabled := true }

def tC : Target := { id := "C", credential_id := "c3", model := "m3", enabled := true }

def demoLayers : List Layer := [{ level := 1, strategy := "round_robin", targets := [tA, tB, tC] }]

def demoPair : List Layer := [{ level := 1, strategy := "round_robin", targets := [tA, tB] }]

/-- All targets of a layer list, in display order. -/
def allTargets (layers : List Layer) : List Target :=
  layers.flatMap Layer.targets

def demoTwoLayers : List Layer :=
  [{ level := 1, strategy := "round_robin", targets := [tA] },
   { level := 2, strategy := "first_enabled", targets := [tB, tC] }]

/-- The level-independent data of a layer (its strategy and target list);
the layer-move operation permutes this data while reassigning levels. -/
def layerData (l : Layer) : String × List Target :=
  (l.strategy, l.targets)

/-- The three credential resolution outcomes of `getCredentialStatus`
(`RouteCard.tsx`): `type CredentialStatus = 'ok' | 'disabled' | 'not_found'`. -/
inductive CredentialStatus
  | ok
  | disabled
  | not_found
deriving DecidableEq, Repr

/-- A credential record as seen by the management UI (`CredentialInfo`);
only the fields the embedded code reads are kept. -/
structure CredentialInfo where
  id : String
  provider : String
  status : String
deriving DecidableEq, Repr

/-- Embedding of `getCredentialStatus` (`RouteCard.tsx`): look the
credential up by id; missing → `not_found`, `status === 'disabled'` →
`disabled`, otherwise `ok`. -/
def getCredentialStatus (credentials : List CredentialInfo) (credentialId : String) :
    CredentialStatus :=
  match credentials.find? (fun c => c.id == credentialId) with
  | none => .not_found
  | some c => if c.status == "disabled" then .disabled else .ok

/-- Embedding of `handleCleanupLayer` (`RouteCard.tsx`): in the layer at
`layerLevel`, keep only targets whose credential status is not
`not_found`; all other layers are passed through unchanged. -/
def handleCleanupLayer (credentials : List CredentialInfo) (pipeline : Pipeline)
    (layerLevel : Nat) : Pipeline :=
  { pipeline with
      layers := pipeline.layers.map fun layer =>
        if layer.level ≠ layerLevel then layer
        else { layer with
            targets := layer.targets.filter fun t =>
              decide (getCredentialStatus credentials t.credential_id
                ≠ CredentialStatus.not_found) } }

/-- Embedding of the nested loops in `handleBatchAddConfirm`
(CredentialsOverview): for each selected credential id and each selected
model id, push one target `{ id: crypto.randomUUID(), credential_id: cid,
model: mid, enabled: true }` — the literal carries no `weight` field.  The
UUID generator is abstracted as a supply `uuid` indexed by the number of
preceding calls. -/
def mkBatchTargets (uuid : Nat → String) : Nat → List (String × String) → List Target
  | _, [] => []
  | k, (cid, mid) :: rest =>
    { id := uuid k, credential_id := cid, model := mid, enabled := true } ::
      mkBatchTargets uuid (k + 1) rest

/-- The (credential, model) pairs visited by the two nested `for … of`
loops, in iteration order. -/
def cartesianPairs (credIds modelIds : List String) : List (String × String) :=
  credIds.flatMap fun cid => modelIds.map fun mid => (cid, mid)

/-- Embedding of the pipeline update of `handleBatchAddConfirm`: do
nothing when no targets were produced; append the new targets to every
layer whose level equals `layerLevel` when one exists; otherwise append a
new `round-robin` layer at that level and re-sort the layers by level
(`[...pipeline.layers, newLayer].sort((a, b) => a.level - b.level)`,
a stable ascending sort). -/
def handleBatchAddConfirm (uuid : Nat → String) (credIds modelIds : List String)
    (pipeline : Pipeline) (layerLevel : Nat) : Pipeline :=
  let newTargets := mkBatchTargets uuid 0 (cartesianPairs credIds modelIds)
  if newTargets.isEmpty then pipeline
  else if pipeline.layers.any fun l => l.level == layerLevel then
    { pipeline with
        layers := pipeline.layers.map fun layer =>
          if layer.level ≠ layerLevel then layer
          else { layer with targets := layer.targets ++ newTargets } }
  else
    let newLayer : Layer :=
      { level := layerLevel, strategy := "round-robin", targets := newTargets }
    { pipeline with
        layers := (pipeline.layers ++ [newLayer]).mergeSort
          (fun a b => decide (a.level ≤ b.level)) }

def demoCartPipeline : Pipeline := { route_id := "r1", layers := demoTwoLayers }

def demoUuid (n : Nat) : String := String.mk (List.replicate n 'u')

/-- The outcome of one `unifiedRoutingApi.getCredential(cred.id)` call as
observed by `handleCheckAllCredentials`: a response whose optional
`models` array may be absent, or a thrown exception. -/
inductive GetCredentialOutcome
  | resp (models : Option (List String))
  | exn
deriving DecidableEq

/-- The per-credential check state, as in the component state
`Record<string, 'success' | 'error'>`. -/
inductive CheckStatus
  | success
  | error
deriving DecidableEq, Repr

/-- Per-item body of the worker loop in `handleCheckAllCredentials`:
`try { const c = await getCredential(cred.id); … (c.models?.length ?? 0) >
0 ? 'success' : 'error' } catch { … 'error' }`.  An exception is caught
and recorded as `'error'`; the loop then continues with the next item. -/
def credentialCheckStatus (o : GetCredentialOutcome) : CheckStatus :=
  match o with
  | .resp models => if 0 < (models.map List.length).getD 0 then .success else .error
  | .exn => .error

/-- The probe items of the run:
`credentials.filter(c => c.status !== 'disabled')`. -/
def nonDisabledCreds (credentials : List CredentialInfo) : List CredentialInfo :=
  credentials.filter fun c => c.status != "disabled"

/-- A scheduler run of `handleCheckAllCredentials`, abstracted over the
nondeterministic completion order.  The `Math.min(10, n)` workers share
the cursor `idx`; JavaScript's single-threaded execution makes the
`allCreds[idx++]` read-increment atomic, so every interleaving hands each
index `0..n-1` to exactly one worker, and each claimed index runs the
per-item body once and lands exactly one `(id, status)` update.  `order`
records the order in which the updates land. -/
def checkRunResults (items : List CredentialInfo)
    (probe : CredentialInfo → GetCredentialOutcome) (order : List Nat) :
    List (String × CheckStatus) :=
  order.filterMap fun i =>
    (items[i]?).map fun c => (c.id, credentialCheckStatus (probe c))

def demoCreds : List CredentialInfo :=
  [{ id := "c1", provider := "p", status := "active" },
   { id := "c2", provider := "p", status := "disabled" },
   { id := "c3", provider := "q", status := "active" },
   { id := "c4", provider := "q", status := "active" }]

/-- A concrete probe behaviour: c1 answers with one model, c3 throws, c4
answers with an empty model list. -/
def demoProbe (c : CredentialInfo) : GetCredentialOutcome :=
  if c.id = "c1" then .resp (some ["m1"])
  else if c.id = "c3" then .exn
  else .resp (some [])

/-- Modelled from the spec: the per-target runtime health states of §4.2
(the backend Target State Tracker is not part of the sources under
verification; only its UI caller `handleSimulateRoute` is). -/
inductive TargetStatus
  | healthy
  | cooling
  | checking
deriving DecidableEq, Repr

/-- Modelled from the spec: the `TargetRuntimeState` record of §3, keyed
by target id in the Target State Tracker. -/
structure TargetRuntimeState where
  status : TargetStatus := .healthy
  consecutive_failures : Nat := 0
  cooldown_ends_at : Option Nat := none
  last_failure_reason : Option String := none
  total_requests : Nat := 0
  successful_requests : Nat := 0
deriving DecidableEq, Repr

/-- Modelled from the spec: the Target State Tracker as a map from target
id to runtime state (lazily-created states are represented by the default
healthy record). -/
def Tracker : Type := String → TargetRuntimeState

/-- Modelled from the spec: `backoff(n) = min(max_cooldown,
base_cooldown * 2^(n-1))` (§4.2). -/
def backoff (base maxCd n : Nat) : Nat :=
  min maxCd (base * 2 ^ (n - 1))

/-- Modelled from the spec: recording one attempt against a target (§4.2):
every attempt increments `total_requests` (and `successful_requests` on
success); a success resets to healthy, a failure moves to cooling with an
incremented failure count, a backoff cooldown and the failure reason. -/
def recordAttempt (now base maxCd : Nat) (st : TargetRuntimeState) (success : Bool)
    (reason : Option String) : TargetRuntimeState :=
  if success then
    { st with
        status := .healthy
        consecutive_failures := 0
        total_requests := st.total_requests + 1
        successful_requests := st.successful_requests + 1 }
  else
    { st with
        status := .cooling
        consecutive_failures := st.consecutive_failures + 1
        cooldown_ends_at := some (now + backoff base maxCd (st.consecutive_failures + 1))
        last_failure_reason := reason
        total_requests := st.total_requests + 1 }

/-- Modelled from the spec: the outcome of attempting one target against
the external Model Probe (§4.4 step 2d). -/
structure AttemptOutcome where
  success : Bool
  message : Option String := none
  latency_ms : Option Nat := none
deriving DecidableEq, Repr

/-- Modelled from the spec: the per-target entry statuses of a resolution
trace (§4.4). -/
inductive TraceStatus
  | success
  | failed
  | no_candidates
deriving DecidableEq, Repr

/-- Modelled from the spec: one attempt-trace entry (§6 simulate response:
`{layer_level, target_id, status}`). -/
structure TraceEntry where
  layer_level : Nat
  target_id : Option String
  status : TraceStatus
deriving DecidableEq, Repr

/-- Modelled from the spec: the resolution walk of §4.4, shared by live
dispatch and simulation, parameterised by `mutate`: live dispatch passes
`true` and writes each attempt into the tracker through `recordAttempt`;
simulation passes `false` and leaves the tracker alone (§5, §6).  Per
layer: filter to enabled targets with an `ok` credential, select one via
the strategy (abstracted as `select`), attempt it; success stops the walk,
failure falls through to the next layer. -/
def runPipelineWalk (mutate : Bool) (select : List Target → Option Target)
    (probe : Target → AttemptOutcome) (credStatus : String → CredentialStatus)
    (now base maxCd : Nat) :
    List Layer → Tracker → List TraceEntry × Tracker × Option Target
  | [], tr => ([], tr, none)
  | layer :: rest, tr =>
    let candidates := layer.targets.filter fun t =>
      t.enabled && (credStatus t.credential_id == CredentialStatus.ok)
    match select candidates with
    | none =>
      let res := runPipelineWalk mutate select probe credStatus now base maxCd rest tr
      ({ layer_level := layer.level, target_id := none,
         status := .no_candidates } :: res.1, res.2)
    | some t =>
      let out := probe t
      let tr1 : Tracker :=
        if mutate then
          fun id => if id = t.id then
              recordAttempt now base maxCd (tr id) out.success out.message
            else tr id
        else tr
      if out.success then
        ([{ layer_level := layer.level, target_id := some t.id, status := .success }],
         tr1, some t)
      else
        let res := runPipelineWalk mutate select probe credStatus now base maxCd rest tr1
        ({ layer_level := layer.level, target_id := some t.id,
           status := .failed } :: res.1, res.2)

/-- Modelled from the spec: `simulate(route)` (§4.4, §6) — the walk with
`mutate = false` over the level-sorted layers. -/
def simulateRoute (select : List Target → Option Target)
    (probe : Target → AttemptOutcome) (credStatus : String → CredentialStatus)
    (now base maxCd : Nat) (p : Pipeline) (tr : Tracker) :
    List TraceEntry × Tracker × Option Target :=
  runPipelineWalk false select probe credStatus now base maxCd
    (p.layers.mergeSort (fun a b => decide (a.level ≤ b.level))) tr

/-- A layer object whose mutable `targets` array lives in the heap at
`targetsRef`: JavaScript object identity made explicit. -/
structure LayerObj where
  level : Nat
  strategy : String
  targetsRef : Nat
deriving DecidableEq, Repr

/-- A heap of JavaScript arrays: `layerMem r` is the layer array stored
at reference `r`, `targetMem r` the target array stored there, and `next`
the allocation counter (all live references are `< next`). -/
structure Heap where
  layerMem : Nat → List LayerObj
  targetMem : Nat → List Target
  next : Nat

/-- Allocate a fresh target array holding `v`. -/
def Heap.allocTargets (h : Heap) (v : List Target) : Heap :=
  { h with
      targetMem := fun r => if r = h.next then v else h.targetMem r
      next := h.next + 1 }

/-- Allocate a fresh layer array holding `v`. -/
def Heap.allocLayers (h : Heap) (v : List LayerObj) : Heap :=
  { h with
      layerMem := fun r => if r = h.next then v else h.layerMem r
      next := h.next + 1 }

/-- In-place update (`splice`) of the target array at `r`. -/
def Heap.writeTargets (h : Heap) (r : Nat) (v : List Target) : Heap :=
  { h with targetMem := fun q => if q = r then v else h.targetMem q }

/-- The deep copy `layers.map(l => ({ ...l, targets: [...l.targets] }))`:
walk the layer objects, allocating a fresh copy of each one's target
array and building new layer objects that point at the copies. -/
def copyLayerObjs : Heap → List LayerObj → Heap × List LayerObj
  | h, [] => (h, [])
  | h, l :: ls =>
    let h1 := h.allocTargets (h.targetMem l.targetsRef)
    let res := copyLayerObjs h1 ls
    (res.1, { l with targetsRef := h.next } :: res.2)

/-- Heap-level embedding of `reorderTargets` (`RouteCard.tsx`): deep-copy
the layer list, allocate the fresh `result` array, then run the two
`splice` calls as writes against the copied target arrays; every failure
branch returns the original array reference. -/
def reorderTargetsH (h : Heap) (layersRef : Nat) (src dst : TargetDropPos) : Heap × Nat :=
  if src.layerIdx = dst.layerIdx ∧ src.targetIdx = dst.targetIdx then (h, layersRef)
  else
    let h1 := (copyLayerObjs h (h.layerMem layersRef)).1
    let result := (copyLayerObjs h (h.layerMem layersRef)).2
    let resRef := h1.next
    let h2 := h1.allocLayers result
    match result[src.layerIdx]?, result[dst.layerIdx]? with
    | some srcLayer, some dstLayer =>
      match (h2.targetMem srcLayer.targetsRef)[src.targetIdx]? with
      | none => (h2, layersRef)
      | some item =>
        let h3 := h2.writeTargets srcLayer.targetsRef
          ((h2.targetMem srcLayer.targetsRef).eraseIdx src.targetIdx)
        let dstT := h3.targetMem dstLayer.targetsRef
        let insertPos :=
          if src.layerIdx = dst.layerIdx ∧ src.targetIdx < dst.targetIdx then
            dst.targetIdx - 1
          else dst.targetIdx
        let h4 := h3.writeTargets dstLayer.targetsRef
          (dstT.insertIdx (min insertPos dstT.length) item)
        (h4, resRef)
    | _, _ => (h2, layersRef)

/-- Indexed map reassigning levels over layer objects, as in
`finishLayerDrag`'s `newLayers.map((layer, i) => ({ ...layer, level:
i + 1 }))` — building new layer objects that share the (untouched) target
arrays. -/
def reindexLevelsObj : Nat → List LayerObj → List LayerObj
  | _, [] => []
  | i, l :: ls => { l with level := i + 1 } :: reindexLevelsObj (i + 1) ls

/-- Heap-level embedding of the layer move in `finishLayerDrag`
(`RouteCard.tsx`): copy the layer array (`[...sortedLayers]`), splice on
the fresh copy, build new reindexed layer objects and allocate the
resulting array.  No target array is ever written. -/
def finishLayerDragH (h : Heap) (layersRef : Nat) (srcIdx dstIdx : Nat) : Heap × Nat :=
  let sorted := h.layerMem layersRef
  match sorted[srcIdx]? with
  | none => (h, layersRef)
  | some moved =>
    let removed := sorted.eraseIdx srcIdx
    let newList := removed.insertIdx (min dstIdx removed.length) moved
    let h1 := h.allocLayers (reindexLevelsObj 0 newList)
    (h1, h.next)

def demoHeap : Heap :=
  { layerMem := fun _ => [{ level := 1, strategy := "round_robin", targetsRef := 0 }]
    targetMem := fun _ => [tA, tB]
    next := 2 }

/-! ## Theorems -/

/-- C1 counterexample: on the layer `[A,B,C]`, moving the target at
position (0,0) to destination (0,2) does NOT produce the order `[B,C,A]`
claimed by the spec's example. -/
theorem reorderTargets_example_not_BCA :
    reorderTargets demoLayers ⟨0, 0⟩ ⟨0, 2⟩ ≠
      [{ level := 1, strategy := "round_robin", targets := [tB, tC, tA] }] := by
  decide

/-- C1 (amended): on the layer `[A,B,C]`, moving the target at position
(0,0) to destination (0,2) produces the order `[B,A,C]`: the removal of A
shifts the list left, the same-layer decrement turns destination index 2
into insertion index 1, and A lands between B and C. -/
theorem reorderTargets_example_BAC :
    reorderTargets demoLayers ⟨0, 0⟩ ⟨0, 2⟩ =
      [{ level := 1, strategy := "round_robin", targets := [tB, tA, tC] }] := by
  decide

/-- C2 counterexample: for the valid in-bounds pair src = (0,1),
dst = (0,0) on the single layer `[A,B]`, applying the target move and then
the move with swapped arguments does not restore the original order (it
yields `[B,A]` twice). -/
theorem reorderTargets_swap_back_fails :
    reorderTargets (reorderTargets demoPair ⟨0, 1⟩ ⟨0, 0⟩) ⟨0, 0⟩ ⟨0, 1⟩ ≠ demoPair ∧
    (⟨0, 1⟩ : TargetDropPos) ≠ ⟨0, 0⟩ ∧
    0 < demoPair.length ∧ 1 < demoPair[0].targets.length := by
  decide

/-- C5 counterexample: on a non-empty pipeline, an out-of-bounds source
position does not signal any error: `reorderTargets` is total and returns
the input layer list unchanged. -/
theorem reorderTargets_oob_returns_pipeline :
    reorderTargets demoLayers ⟨5, 0⟩ ⟨0, 0⟩ = demoLayers ∧
    demoLayers ≠ [] ∧ demoLayers.length ≤ 5 := by
  decide

/-- Helper: every guard-failure branch of `reorderTargets` returns the
input list unchanged. -/
theorem reorderTargets_degenerate (layers : List Layer) (src dst : TargetDropPos)
    (h : layers[src.layerIdx]? = none ∨ layers[dst.layerIdx]? = none ∨
         ∃ L, layers[src.layerIdx]? = some L ∧ L.targets[src.targetIdx]? = none) :
    reorderTargets layers src dst = layers := by
  unfold reorderTargets
  split
  · rfl
  · rcases hs : layers[src.layerIdx]? with _ | srcL
    · rfl
    · rcases hd : layers[dst.layerIdx]? with _ | dstL
      · rfl
      · rcases h with h | h | ⟨L, hL, ht⟩
        · exact absurd hs (h ▸ by simp)
        · exact absurd hd (h ▸ by simp)
        · rw [hs] at hL
          cases Option.some.inj hL
          simp only [ht]

/-- Helper: the same-position guard of `reorderTargets` returns the input. -/
theorem reorderTargets_same_pos (layers : List Layer) (src dst : TargetDropPos)
    (h : src.layerIdx = dst.layerIdx ∧ src.targetIdx = dst.targetIdx) :
    reorderTargets layers src dst = layers := by
  unfold reorderTargets
  rw [if_pos h]

/-- Helper: the main path of `reorderTargets` — remove at the source,
re-read the destination layer, insert at the (decremented and clamped)
destination index. -/
theorem reorderTargets_main_eq (layers : List Layer) (src dst : TargetDropPos)
    (srcL dstL0 dstLayer : Layer) (item : Target)
    (hguard : ¬(src.layerIdx = dst.layerIdx ∧ src.targetIdx = dst.targetIdx))
    (hs : layers[src.layerIdx]? = some srcL)
    (hd : layers[dst.layerIdx]? = some dstL0)
    (hit : srcL.targets[src.targetIdx]? = some item)
    (hq : (layers.set src.layerIdx
        { srcL with targets := srcL.targets.eraseIdx src.targetIdx })[dst.layerIdx]?
      = some dstLayer) :
    reorderTargets layers src dst =
      (layers.set src.layerIdx
          { srcL with targets := srcL.targets.eraseIdx src.targetIdx }).set dst.layerIdx
        { dstLayer with
            targets :=
              dstLayer.targets.insertIdx
                (min (if src.layerIdx = dst.layerIdx ∧ src.targetIdx < dst.targetIdx then
                    dst.targetIdx - 1
                  else dst.targetIdx) dstLayer.targets.length)
                item } := by
  unfold reorderTargets
  rw [if_neg hguard]
  simp only [hs, hd, hit, hq]

/-- C5 (amended): the target-move operation signals no error; whenever the
source layer index, destination layer index, or source target index is out
of bounds it returns the input layer list unchanged (an out-of-range
destination target index is instead clamped, see the C10 theorem). -/
theorem reorderTargets_out_of_bounds_returns_input (layers : List Layer)
    (src dst : TargetDropPos)
    (h : layers[src.layerIdx]? = none ∨ layers[dst.layerIdx]? = none ∨
         ∃ L, layers[src.layerIdx]? = some L ∧ L.targets[src.targetIdx]? = none) :
    reorderTargets layers src dst = layers :=
  reorderTargets_degenerate layers src dst h

/-- Witness for the C5 amended theorem at the concrete out-of-bounds input
src = (5,0) on the non-empty three-target demo pipeline. -/
theorem reorderTargets_out_of_bounds_witness :
    reorderTargets demoLayers ⟨5, 0⟩ ⟨0, 1⟩ = demoLayers :=
  reorderTargets_out_of_bounds_returns_input demoLayers ⟨5, 0⟩ ⟨0, 1⟩ (Or.inl (by decide))

theorem eq_take_getElem_cons_drop {α : Type _} (l : List α) (i : Nat) (h : i < l.length) :
    l = l.take i ++ l[i] :: l.drop (i + 1) := by
  conv_lhs => rw [← List.take_append_drop i l, List.drop_eq_getElem_cons h]

theorem perm_getElem_cons_eraseIdx {α : Type _} (l : List α) (i : Nat) (h : i < l.length) :
    l.Perm (l[i] :: l.eraseIdx i) := by
  rw [List.eraseIdx_eq_take_drop_succ]
  conv_lhs => rw [eq_take_getElem_cons_drop l i h]
  exact List.perm_middle

theorem allTargets_set (layers : List Layer) (i : Nat) (L' : Layer)
    (h : i < layers.length) :
    (↑(allTargets (layers.set i L')) : Multiset Target) + ↑(layers[i].targets)
      = ↑(allTargets layers) + ↑L'.targets := by
  have h1 : allTargets (layers.set i L')
      = allTargets (layers.take i) ++ (L'.targets ++ allTargets (layers.drop (i + 1))) := by
    rw [List.set_eq_take_cons_drop _ h]
    unfold allTargets
    rw [List.flatMap_append, List.flatMap_cons]
  have h2 : allTargets layers
      = allTargets (layers.take i) ++ (layers[i].targets ++ allTargets (layers.drop (i + 1))) := by
    conv_lhs => rw [eq_take_getElem_cons_drop layers i h]
    unfold allTargets
    rw [List.flatMap_append, List.flatMap_cons]
  rw [h1, h2, ← Multiset.coe_add, ← Multiset.coe_add, ← Multiset.coe_add, ← Multiset.coe_add]
  abel

/-- C10: the target-move operation is total and multiset-preserving — for
every input, in or out of bounds, the result holds exactly the same
multiset of targets as the input (no target lost or duplicated); moreover
an out-of-range destination target index behaves exactly like the clamped
destination index (the end of the destination layer). -/
theorem reorderTargets_total_multiset_preserving (layers : List Layer)
    (src dst : TargetDropPos) :
    (allTargets (reorderTargets layers src dst)).Perm (allTargets layers) ∧
    ((hs : src.layerIdx < layers.length) → (hd : dst.layerIdx < layers.length) →
      src.targetIdx < layers[src.layerIdx].targets.length →
      layers[dst.layerIdx].targets.length ≤ dst.targetIdx →
      reorderTargets layers src dst =
        reorderTargets layers src ⟨dst.layerIdx, layers[dst.layerIdx].targets.length⟩) := by
  constructor
  · rcases hs : layers[src.layerIdx]? with _ | srcL
    · rw [reorderTargets_degenerate layers src dst (Or.inl hs)]
    rcases hd : layers[dst.layerIdx]? with _ | dstL0
    · rw [reorderTargets_degenerate layers src dst (Or.inr (Or.inl hd))]
    rcases hit : srcL.targets[src.targetIdx]? with _ | item
    · rw [reorderTargets_degenerate layers src dst (Or.inr (Or.inr ⟨srcL, hs, hit⟩))]
    by_cases hguard : src.layerIdx = dst.layerIdx ∧ src.targetIdx = dst.targetIdx
    · rw [reorderTargets_same_pos layers src dst hguard]
    obtain ⟨hsl, hsrcL⟩ := List.getElem?_eq_some.mp hs
    obtain ⟨hti, hitem⟩ := List.getElem?_eq_some.mp hit
    have hdl : dst.layerIdx < (layers.set src.layerIdx
        { srcL with targets := srcL.targets.eraseIdx src.targetIdx }).length := by
      rw [List.length_set]
      exact (List.getElem?_eq_some.mp hd).1
    have hq : (layers.set src.layerIdx
        { srcL with targets := srcL.targets.eraseIdx src.targetIdx })[dst.layerIdx]?
        = some ((layers.set src.layerIdx
            { srcL with targets := srcL.targets.eraseIdx src.targetIdx })[dst.layerIdx]) :=
      List.getElem?_eq_getElem hdl
    set dstLayer := (layers.set src.layerIdx
        { srcL with targets := srcL.targets.eraseIdx src.targetIdx })[dst.layerIdx] with hdstL
    rw [reorderTargets_main_eq layers src dst srcL dstL0 dstLayer item hguard hs hd hit hq]
    rw [← Multiset.coe_eq_coe]
    set erased : Layer := { srcL with targets := srcL.targets.eraseIdx src.targetIdx } with herased
    set afterRemove := layers.set src.layerIdx erased with hAR
    set pos := min (if src.layerIdx = dst.layerIdx ∧ src.targetIdx < dst.targetIdx then
        dst.targetIdx - 1 else dst.targetIdx) dstLayer.targets.length with hpos
    have hposle : pos ≤ dstLayer.targets.length := Nat.min_le_right _ _
    have eq1 := allTargets_set afterRemove dst.layerIdx
      { dstLayer with targets := dstLayer.targets.insertIdx pos item } hdl
    have coeIns : (↑(dstLayer.targets.insertIdx pos item) : Multiset Target)
        = ↑[item] + ↑dstLayer.targets := by
      rw [Multiset.coe_add]
      exact Multiset.coe_eq_coe.mpr (List.perm_insertIdx item dstLayer.targets hposle)
    have eq2 := allTargets_set layers src.layerIdx erased hsl
    have coeSrc : (↑(layers[src.layerIdx].targets) : Multiset Target)
        = ↑[item] + ↑(srcL.targets.eraseIdx src.targetIdx) := by
      rw [Multiset.coe_add, hsrcL]
      exact Multiset.coe_eq_coe.mpr (hitem ▸ perm_getElem_cons_eraseIdx srcL.targets _ hti)
    simp only [coeIns] at eq1
    rw [coeSrc] at eq2
    have hA : (↑(allTargets afterRemove) : Multiset Target) + ↑[item] = ↑(allTargets layers) := by
      apply add_right_cancel (b := (↑(srcL.targets.eraseIdx src.targetIdx) : Multiset Target))
      calc (↑(allTargets afterRemove) : Multiset Target) + ↑[item]
            + ↑(srcL.targets.eraseIdx src.targetIdx)
          = ↑(allTargets afterRemove) + (↑[item] + ↑(srcL.targets.eraseIdx src.targetIdx)) := by
            rw [add_assoc]
        _ = ↑(allTargets layers) + ↑(erased.targets) := eq2
        _ = ↑(allTargets layers) + ↑(srcL.targets.eraseIdx src.targetIdx) := rfl
    apply add_right_cancel (b := (↑(afterRemove[dst.layerIdx].targets) : Multiset Target))
    calc (↑(allTargets (afterRemove.set dst.layerIdx
            { dstLayer with targets := dstLayer.targets.insertIdx pos item })) : Multiset Target)
          + ↑(afterRemove[dst.layerIdx].targets)
        = ↑(allTargets afterRemove) + (↑[item] + ↑dstLayer.targets) := eq1
      _ = ↑(allTargets afterRemove) + ↑[item] + ↑dstLayer.targets := by rw [add_assoc]
      _ = ↑(allTargets layers) + ↑(afterRemove[dst.layerIdx].targets) := by rw [hA]
  · intro hs hd hst hbig
    have hlen : src.layerIdx = dst.layerIdx →
        layers[src.layerIdx].targets.length = layers[dst.layerIdx].targets.length := by
      intro h1
      have h0 : layers[src.layerIdx]? = layers[dst.layerIdx]? := by rw [h1]
      rw [List.getElem?_eq_getElem hs, List.getElem?_eq_getElem hd] at h0
      rw [Option.some.inj h0]
    have hguard1 : ¬(src.layerIdx = dst.layerIdx ∧ src.targetIdx = dst.targetIdx) := by
      rintro ⟨h1, h2⟩
      have := hlen h1
      omega
    have hguard2 : ¬(src.layerIdx = dst.layerIdx ∧
        src.targetIdx = layers[dst.layerIdx].targets.length) := by
      rintro ⟨h1, h2⟩
      have := hlen h1
      omega
    have hs' : layers[src.layerIdx]? = some layers[src.layerIdx] := List.getElem?_eq_getElem hs
    have hd' : layers[dst.layerIdx]? = some layers[dst.layerIdx] := List.getElem?_eq_getElem hd
    have hit : layers[src.layerIdx].targets[src.targetIdx]?
        = some layers[src.layerIdx].targets[src.targetIdx] := List.getElem?_eq_getElem hst
    have hdl : dst.layerIdx < (layers.set src.layerIdx
        { layers[src.layerIdx] with
            targets := layers[src.layerIdx].targets.eraseIdx src.targetIdx }).length := by
      rw [List.length_set]
      exact hd
    have hq := List.getElem?_eq_getElem hdl
    set dstLayer := (layers.set src.layerIdx
        { layers[src.layerIdx] with
            targets := layers[src.layerIdx].targets.eraseIdx src.targetIdx })[dst.layerIdx]
      with hdstL
    have hdd : dstLayer.targets.length =
        if src.layerIdx = dst.layerIdx then layers[dst.layerIdx].targets.length - 1
        else layers[dst.layerIdx].targets.length := by
      rw [hdstL, List.getElem_set]
      by_cases heq : src.layerIdx = dst.layerIdx
      · rw [if_pos heq, if_pos heq]
        simp only [List.length_eraseIdx]
        rw [if_pos hst, hlen heq]
      · rw [if_neg heq, if_neg heq]
    have hk1 : min (if src.layerIdx = dst.layerIdx ∧ src.targetIdx < dst.targetIdx then
        dst.targetIdx - 1 else dst.targetIdx) dstLayer.targets.length
        = dstLayer.targets.length := by
      by_cases heq : src.layerIdx = dst.layerIdx
      · rw [if_pos ⟨heq, by have := hlen heq; omega⟩, hdd, if_pos heq]
        omega
      · rw [if_neg (fun hc => heq hc.1), hdd, if_neg heq]
        omega
    have hk2 : min (if src.layerIdx = dst.layerIdx ∧
        src.targetIdx < layers[dst.layerIdx].targets.length then
        layers[dst.layerIdx].targets.length - 1 else layers[dst.layerIdx].targets.length)
        dstLayer.targets.length = dstLayer.targets.length := by
      by_cases heq : src.layerIdx = dst.layerIdx
      · rw [if_pos ⟨heq, by have := hlen heq; omega⟩, hdd, if_pos heq]
        omega
      · rw [if_neg (fun hc => heq hc.1), hdd, if_neg heq]
        omega
    calc reorderTargets layers src dst
        = (layers.set src.layerIdx
            { layers[src.layerIdx] with
                targets := layers[src.layerIdx].targets.eraseIdx src.targetIdx }).set
            dst.layerIdx
            { dstLayer with
                targets := dstLayer.targets.insertIdx
                  (min (if src.layerIdx = dst.layerIdx ∧ src.targetIdx < dst.targetIdx then
                      dst.targetIdx - 1
                    else dst.targetIdx) dstLayer.targets.length)
                  layers[src.layerIdx].targets[src.targetIdx] } :=
          reorderTargets_main_eq layers src dst layers[src.layerIdx] layers[dst.layerIdx]
            dstLayer layers[src.layerIdx].targets[src.targetIdx] hguard1 hs' hd' hit hq
      _ = (layers.set src.layerIdx
            { layers[src.layerIdx] with
                targets := layers[src.layerIdx].targets.eraseIdx src.targetIdx }).set
            dst.layerIdx
            { dstLayer with
                targets := dstLayer.targets.insertIdx
                  (min (if src.layerIdx = dst.layerIdx ∧
                      src.targetIdx < layers[dst.layerIdx].targets.length then
                      layers[dst.layerIdx].targets.length - 1
                    else layers[dst.layerIdx].targets.length) dstLayer.targets.length)
                  layers[src.layerIdx].targets[src.targetIdx] } := by
          rw [hk1, hk2]
      _ = reorderTargets layers src ⟨dst.layerIdx, layers[dst.layerIdx].targets.length⟩ :=
          (reorderTargets_main_eq layers src
            ⟨dst.layerIdx, layers[dst.layerIdx].targets.length⟩ layers[src.layerIdx]
            layers[dst.layerIdx] dstLayer layers[src.layerIdx].targets[src.targetIdx]
            hguard2 hs' hd' hit hq).symm

/-- Witness for the C10 theorem: on the demo pipeline, moving (0,0) to the
far-out-of-range destination (0,5) preserves the target multiset and
equals the move onto the clamped destination (0,3). -/
theorem reorderTargets_total_multiset_preserving_witness :
    (allTargets (reorderTargets demoLayers ⟨0, 0⟩ ⟨0, 5⟩)).Perm (allTargets demoLayers) ∧
    reorderTargets demoLayers ⟨0, 0⟩ ⟨0, 5⟩ = reorderTargets demoLayers ⟨0, 0⟩ ⟨0, 3⟩ := by
  have h := reorderTargets_total_multiset_preserving demoLayers ⟨0, 0⟩ ⟨0, 5⟩
  exact ⟨h.1, h.2 (by decide) (by decide) (by decide) (by decide)⟩

theorem set_getElem_self {α : Type _} (l : List α) (i : Nat) (h : i < l.length) :
    l.set i l[i] = l := by
  apply List.ext_getElem?
  intro j
  rw [List.getElem?_set]
  split
  · rename_i hij
    subst hij
    exact (List.getElem?_eq_getElem h).symm
  · rfl

theorem insertIdx_getElem_eraseIdx {α : Type _} (l : List α) (i : Nat) (h : i < l.length) :
    (l.eraseIdx i).insertIdx i l[i] = l := by
  induction l generalizing i with
  | nil => cases h
  | cons a t ih =>
    cases i with
    | zero => rfl
    | succ n =>
      simp only [List.eraseIdx_cons_succ, List.insertIdx_succ_cons, List.getElem_cons_succ]
      rw [ih n (by simpa using h)]

/-- C2 (amended): moving a target between two different layers and then
applying the move with the arguments swapped restores the original layer
list exactly.  (For same-layer moves the counterexample above shows the
round trip can change the order: the destination index denotes a gap in
the pre-removal list, which is not symmetric.) -/
theorem reorderTargets_cross_layer_involution (layers : List Layer)
    (src dst : TargetDropPos) (hne : src.layerIdx ≠ dst.layerIdx)
    (hs : src.layerIdx < layers.length) (hd : dst.layerIdx < layers.length)
    (hsi : src.targetIdx < layers[src.layerIdx].targets.length)
    (hdi : dst.targetIdx ≤ layers[dst.layerIdx].targets.length) :
    reorderTargets (reorderTargets layers src dst) dst src = layers := by
  have hguard1 : ¬(src.layerIdx = dst.layerIdx ∧ src.targetIdx = dst.targetIdx) :=
    fun hc => hne hc.1
  have hs' : layers[src.layerIdx]? = some layers[src.layerIdx] := List.getElem?_eq_getElem hs
  have hd' : layers[dst.layerIdx]? = some layers[dst.layerIdx] := List.getElem?_eq_getElem hd
  have hit : layers[src.layerIdx].targets[src.targetIdx]?
      = some layers[src.layerIdx].targets[src.targetIdx] := List.getElem?_eq_getElem hsi
  set E : Layer := { layers[src.layerIdx] with
      targets := layers[src.layerIdx].targets.eraseIdx src.targetIdx } with hE
  have hARd : (layers.set src.layerIdx E)[dst.layerIdx]? = some layers[dst.layerIdx] := by
    rw [List.getElem?_set, if_neg hne]
    exact hd'
  set F : Layer := { layers[dst.layerIdx] with
      targets := layers[dst.layerIdx].targets.insertIdx dst.targetIdx
        layers[src.layerIdx].targets[src.targetIdx] } with hF
  have e1 : reorderTargets layers src dst = (layers.set src.layerIdx E).set dst.layerIdx F := by
    rw [reorderTargets_main_eq layers src dst layers[src.layerIdx] layers[dst.layerIdx]
      layers[dst.layerIdx] layers[src.layerIdx].targets[src.targetIdx] hguard1 hs' hd' hit hARd]
    rw [hF]
    congr 2
    rw [if_neg (fun hc => hne hc.1), Nat.min_eq_left hdi]
  set R1 := (layers.set src.layerIdx E).set dst.layerIdx F with hR1
  have hguard2 : ¬(dst.layerIdx = src.layerIdx ∧ dst.targetIdx = src.targetIdx) :=
    fun hc => hne hc.1.symm
  have hs2 : R1[dst.layerIdx]? = some F := by
    rw [hR1, List.getElem?_set, if_pos rfl, List.length_set, if_pos hd]
  have hd2 : R1[src.layerIdx]? = some E := by
    rw [hR1, List.getElem?_set, if_neg (fun hc => hne hc.symm), List.getElem?_set,
      if_pos rfl, if_pos hs]
  have hit2 : F.targets[dst.targetIdx]? = some layers[src.layerIdx].targets[src.targetIdx] := by
    rw [hF]
    rw [List.getElem?_eq_getElem (by rw [List.length_insertIdx _ _ hdi]; omega)]
    rw [List.getElem_insertIdx_self _ _ _ hdi]
  have hFE : { F with targets := F.targets.eraseIdx dst.targetIdx } = layers[dst.layerIdx] := by
    rw [hF]
    simp only [List.eraseIdx_insertIdx]
  have hAR2 : R1.set dst.layerIdx { F with targets := F.targets.eraseIdx dst.targetIdx }
      = layers.set src.layerIdx E := by
    rw [hFE, hR1, List.set_set]
    have hb : dst.layerIdx < (layers.set src.layerIdx E).length := by
      rw [List.length_set]
      exact hd
    have hd3 : (layers.set src.layerIdx E)[dst.layerIdx] = layers[dst.layerIdx] := by
      rw [List.getElem_set, if_neg hne]
    have := set_getElem_self (layers.set src.layerIdx E) dst.layerIdx hb
    rw [hd3] at this
    exact this
  have hq2 : (R1.set dst.layerIdx
      { F with targets := F.targets.eraseIdx dst.targetIdx })[src.layerIdx]? = some E := by
    rw [hAR2, List.getElem?_set, if_pos rfl, if_pos hs]
  rw [e1]
  rw [reorderTargets_main_eq R1 dst src F E E
    layers[src.layerIdx].targets[src.targetIdx] hguard2 hs2 hd2 hit2 hq2]
  rw [hAR2, List.set_set]
  have hmin : min (if dst.layerIdx = src.layerIdx ∧ dst.targetIdx < src.targetIdx then
      src.targetIdx - 1 else src.targetIdx) E.targets.length = src.targetIdx := by
    rw [if_neg (fun hc => hne hc.1.symm), hE]
    simp only [List.length_eraseIdx]
    rw [if_pos hsi]
    omega
  rw [hmin]
  have hback : { E with
      targets := E.targets.insertIdx src.targetIdx
        layers[src.layerIdx].targets[src.targetIdx] } = layers[src.layerIdx] := by
    rw [hE]
    simp only [insertIdx_getElem_eraseIdx _ _ hsi]
  rw [hback]
  exact set_getElem_self layers src.layerIdx hs

theorem reindexLevels_map_level (k : Nat) (L : List Layer) :
    (reindexLevels k L).map Layer.level = List.range' (k + 1) L.length := by
  induction L generalizing k with
  | nil => rfl
  | cons a t ih =>
    simp only [reindexLevels, List.map_cons, List.length_cons, List.range'_succ]
    rw [ih (k + 1)]

theorem reindexLevels_map_data (k : Nat) (L : List Layer) :
    (reindexLevels k L).map layerData = L.map layerData := by
  induction L generalizing k with
  | nil => rfl
  | cons a t ih =>
    simp only [reindexLevels, List.map_cons]
    rw [ih (k + 1)]
    rfl

theorem reindexLevels_getElem? (k : Nat) (L : List Layer) (i : Nat) :
    (reindexLevels k L)[i]? = L[i]?.map (fun l => { l with level := k + i + 1 }) := by
  induction L generalizing k i with
  | nil => simp [reindexLevels]
  | cons a t ih =>
    cases i with
    | zero => simp [reindexLevels]
    | succ n =>
      simp only [reindexLevels, List.getElem?_cons_succ]
      rw [ih (k + 1) n]
      simp only [show k + 1 + n + 1 = k + (n + 1) + 1 from by omega]

/-- C4: for every layer list with `srcIdx ≠ dstIdx` both in bounds, the
layer-move operation produces a list whose (strategy, targets) data is a
permutation of the input's, with the moved layer's data at position
`dstIdx`, and whose levels are reassigned to exactly `1..N`, contiguous
and strictly ascending in the new order. -/
theorem finishLayerDrag_permutes_and_reindexes (layers : List Layer) (srcIdx dstIdx : Nat)
    (hs : srcIdx < layers.length) (hd : dstIdx < layers.length) (hne : srcIdx ≠ dstIdx) :
    ((finishLayerDrag layers srcIdx dstIdx).map layerData).Perm (layers.map layerData) ∧
    (finishLayerDrag layers srcIdx dstIdx).map Layer.level
      = List.range' 1 layers.length ∧
    ((finishLayerDrag layers srcIdx dstIdx)[dstIdx]?).map layerData
      = some (layerData layers[srcIdx]) := by
  have hmain : finishLayerDrag layers srcIdx dstIdx
      = reindexLevels 0 ((layers.eraseIdx srcIdx).insertIdx
          (min dstIdx (layers.eraseIdx srcIdx).length) layers[srcIdx]) := by
    unfold finishLayerDrag
    rw [List.getElem?_eq_getElem hs]
  have helen : (layers.eraseIdx srcIdx).length = layers.length - 1 := by
    rw [List.length_eraseIdx, if_pos hs]
  have hm : min dstIdx (layers.eraseIdx srcIdx).length = dstIdx := by
    rw [helen]
    omega
  rw [hmain, hm]
  have hmle : dstIdx ≤ (layers.eraseIdx srcIdx).length := by omega
  have hperm : ((layers.eraseIdx srcIdx).insertIdx dstIdx layers[srcIdx]).Perm layers :=
    (List.perm_insertIdx layers[srcIdx] (layers.eraseIdx srcIdx) hmle).trans
      (perm_getElem_cons_eraseIdx layers srcIdx hs).symm
  refine ⟨?_, ?_, ?_⟩
  · rw [reindexLevels_map_data]
    exact hperm.map layerData
  · rw [reindexLevels_map_level]
    have : ((layers.eraseIdx srcIdx).insertIdx dstIdx layers[srcIdx]).length
        = layers.length := by
      rw [List.length_insertIdx dstIdx _ hmle]
      omega
    rw [this]
  · rw [reindexLevels_getElem?]
    have hget : ((layers.eraseIdx srcIdx).insertIdx dstIdx layers[srcIdx])[dstIdx]?
        = some layers[srcIdx] := by
      rw [List.getElem?_eq_getElem (by rw [List.length_insertIdx dstIdx _ hmle]; omega)]
      rw [List.getElem_insertIdx_self _ _ _ hmle]
    rw [hget]
    rfl

theorem getCredentialStatus_ne_not_found_iff (credentials : List CredentialInfo)
    (credentialId : String) :
    getCredentialStatus credentials credentialId ≠ CredentialStatus.not_found ↔
      credentials.any (fun c => c.id == credentialId) = true := by
  unfold getCredentialStatus
  rcases hf : credentials.find? (fun c => c.id == credentialId) with _ | c
  all_goals simp only [hf]
  · simp only [ne_eq, not_true_eq_false, false_iff]
    rw [List.find?_eq_none] at hf
    intro hany
    obtain ⟨x, hx, hpx⟩ := List.any_eq_true.mp hany
    exact hf x hx hpx
  · have hp : (c.id == credentialId) = true :=
      List.find?_some (p := fun x : CredentialInfo => x.id == credentialId) hf
    constructor
    · intro _
      exact List.any_eq_true.mpr ⟨c, List.mem_of_find?_eq_some hf, hp⟩
    · intro _
      split <;> simp

/-- C7: the cleanup operation removes from the layer at the chosen level
exactly the targets whose `credential_id` matches no existing credential —
targets with an existing (even disabled) credential are kept, in order,
by a plain filter — and every other layer is returned unchanged. -/
theorem handleCleanupLayer_removes_exactly_dangling (credentials : List CredentialInfo)
    (pipeline : Pipeline) (layerLevel : Nat) :
    handleCleanupLayer credentials pipeline layerLevel =
      { pipeline with
          layers := pipeline.layers.map fun layer =>
            if layer.level = layerLevel then
              { layer with
                  targets := layer.targets.filter fun t =>
                    credentials.any (fun c => c.id == t.credential_id) }
            else layer } := by
  unfold handleCleanupLayer
  congr 1
  apply List.map_congr_left
  intro layer _
  by_cases h : layer.level = layerLevel
  · rw [if_neg (fun hc => hc h), if_pos h]
    congr 1
    apply List.filter_congr
    intro t _
    rw [Bool.eq_iff_iff, decide_eq_true_eq]
    exact getCredentialStatus_ne_not_found_iff credentials t.credential_id
  · rw [if_pos h, if_neg h]

theorem mkBatchTargets_length (uuid : Nat → String) (k : Nat) (ps : List (String × String)) :
    (mkBatchTargets uuid k ps).length = ps.length := by
  induction ps generalizing k with
  | nil => rfl
  | cons p rest ih =>
    cases p
    simp only [mkBatchTargets, List.length_cons, ih]

theorem cartesianPairs_length (credIds modelIds : List String) :
    (cartesianPairs credIds modelIds).length = credIds.length * modelIds.length := by
  induction credIds with
  | nil => simp [cartesianPairs]
  | cons c rest ih =>
    simp only [cartesianPairs, List.flatMap_cons, List.length_append, List.length_map,
      List.length_cons] at *
    rw [ih, Nat.succ_mul, Nat.add_comm]

theorem mkBatchTargets_map_id (uuid : Nat → String) (k : Nat) (ps : List (String × String)) :
    (mkBatchTargets uuid k ps).map Target.id = (List.range' k ps.length).map uuid := by
  induction ps generalizing k with
  | nil => rfl
  | cons p rest ih =>
    cases p
    simp only [mkBatchTargets, List.map_cons, List.length_cons, List.range'_succ]
    rw [ih (k + 1)]

theorem mkBatchTargets_enabled_weight (uuid : Nat → String) (k : Nat)
    (ps : List (String × String)) :
    (mkBatchTargets uuid k ps).all
      (fun t => t.enabled && (t.effectiveWeight == 1)) = true := by
  induction ps generalizing k with
  | nil => rfl
  | cons p rest ih =>
    cases p
    simp only [mkBatchTargets, List.all_cons, ih, Bool.and_true]
    rfl

theorem find?_eq_head?_filter {α : Type _} (p : α → Bool) (l : List α) :
    l.find? p = (l.filter p).head? := by
  induction l with
  | nil => rfl
  | cons a t ih =>
    by_cases h : p a = true
    · rw [List.find?_cons_of_pos t h, List.filter_cons, if_pos h]
      rfl
    · rw [List.find?_cons_of_neg t h, List.filter_cons, if_neg h, ih]

theorem perm_eq_of_length_le_one {α : Type _} {l₁ l₂ : List α}
    (h : l₁.Perm l₂) (hlen : l₁.length ≤ 1) : l₁ = l₂ := by
  cases l₁ with
  | nil => exact (List.Perm.nil_eq h).symm ▸ rfl
  | cons a t =>
    cases t with
    | nil => exact (List.perm_singleton.mp h.symm).symm
    | cons b u => simp at hlen

theorem find?_eq_of_perm_of_countP_le_one {α : Type _} {l₁ l₂ : List α} (p : α → Bool)
    (h : l₁.Perm l₂) (hc : l₁.countP p ≤ 1) :
    l₁.find? p = l₂.find? p := by
  rw [find?_eq_head?_filter, find?_eq_head?_filter]
  rw [List.countP_eq_length_filter] at hc
  rw [perm_eq_of_length_le_one (h.filter p) hc]

theorem countP_level_le_one {layers : List Layer}
    (hnd : (layers.map Layer.level).Nodup) (lv : Nat) :
    layers.countP (fun l => l.level == lv) ≤ 1 := by
  induction layers with
  | nil => simp [List.countP_nil]
  | cons a t ih =>
    simp only [List.map_cons, List.nodup_cons] at hnd
    rw [List.countP_cons]
    by_cases h : a.level = lv
    · have hz : t.countP (fun l => l.level == lv) = 0 := by
        rw [List.countP_eq_zero]
        intro b hb hpb
        have hb' : b.level = lv := by simpa using hpb
        exact hnd.1 (by rw [h, ← hb']; exact List.mem_map_of_mem Layer.level hb)
      simp [hz, h]
    · have hfalse : (a.level == lv) = false := by simpa using h
      simp only [hfalse, if_false]
      simpa using ih hnd.2

theorem handleBatchAddConfirm_layers_append (uuid : Nat → String)
    (credIds modelIds : List String) (pipeline : Pipeline) (layerLevel : Nat)
    (h1 : mkBatchTargets uuid 0 (cartesianPairs credIds modelIds) ≠ [])
    (h2 : pipeline.layers.any (fun l => l.level == layerLevel) = true) :
    (handleBatchAddConfirm uuid credIds modelIds pipeline layerLevel).layers
      = pipeline.layers.map fun layer =>
          if layer.level ≠ layerLevel then layer
          else { layer with
              targets := layer.targets
                ++ mkBatchTargets uuid 0 (cartesianPairs credIds modelIds) } := by
  unfold handleBatchAddConfirm
  rw [if_neg (by simpa [List.isEmpty_iff] using h1), if_pos h2]

theorem handleBatchAddConfirm_layers_newLayer (uuid : Nat → String)
    (credIds modelIds : List String) (pipeline : Pipeline) (layerLevel : Nat)
    (h1 : mkBatchTargets uuid 0 (cartesianPairs credIds modelIds) ≠ [])
    (h2 : pipeline.layers.any (fun l => l.level == layerLevel) = false) :
    (handleBatchAddConfirm uuid credIds modelIds pipeline layerLevel).layers
      = (pipeline.layers ++
          [({ level := layerLevel, strategy := "round-robin",
              targets := mkBatchTargets uuid 0 (cartesianPairs credIds modelIds) } : Layer)]).mergeSort
          (fun a b => decide (a.level ≤ b.level)) := by
  unfold handleBatchAddConfirm
  rw [if_neg (by simpa [List.isEmpty_iff] using h1), if_neg (by simp [h2])]

/-- C6: with non-empty credential and model selections, the batch-add
confirm produces exactly |C| × |M| targets — pairwise distinct fresh ids
(for an injective UUID supply), `enabled = true` and effective weight 1 —
and appends all of them to the (unique, by the level-Nodup hypothesis)
layer at the chosen level, creating that layer when absent, while the
targets found at every other level are unchanged. -/
theorem handleBatchAddConfirm_cartesian_appends (uuid : Nat → String)
    (credIds modelIds : List String) (pipeline : Pipeline) (layerLevel : Nat)
    (hinj : Function.Injective uuid) (hc : credIds ≠ []) (hm : modelIds ≠ [])
    (hnd : (pipeline.layers.map Layer.level).Nodup) :
    (mkBatchTargets uuid 0 (cartesianPairs credIds modelIds)).length
      = credIds.length * modelIds.length ∧
    ((mkBatchTargets uuid 0 (cartesianPairs credIds modelIds)).map Target.id).Nodup ∧
    (mkBatchTargets uuid 0 (cartesianPairs credIds modelIds)).all
      (fun t => t.enabled && (t.effectiveWeight == 1)) = true ∧
    (∀ lv : Nat, lv ≠ layerLevel →
      ((handleBatchAddConfirm uuid credIds modelIds pipeline layerLevel).layers.find?
          (fun l => l.level == lv)).map Layer.targets
        = (pipeline.layers.find? (fun l => l.level == lv)).map Layer.targets) ∧
    ((handleBatchAddConfirm uuid credIds modelIds pipeline layerLevel).layers.find?
        (fun l => l.level == layerLevel)).map Layer.targets
      = some ((((pipeline.layers.find? (fun l => l.level == layerLevel)).map
            Layer.targets).getD [])
          ++ mkBatchTargets uuid 0 (cartesianPairs credIds modelIds)) := by
  have hlen : (mkBatchTargets uuid 0 (cartesianPairs credIds modelIds)).length
      = credIds.length * modelIds.length := by
    rw [mkBatchTargets_length, cartesianPairs_length]
  have hne : mkBatchTargets uuid 0 (cartesianPairs credIds modelIds) ≠ [] := by
    intro hnil
    have := hlen
    rw [hnil] at this
    have hc' : 0 < credIds.length := List.length_pos.mpr hc
    have hm' : 0 < modelIds.length := List.length_pos.mpr hm
    simp only [List.length_nil] at this
    exact absurd this.symm (by positivity)
  refine ⟨hlen, ?_, mkBatchTargets_enabled_weight uuid 0 _, ?_, ?_⟩
  · rw [mkBatchTargets_map_id]
    exact List.Nodup.map hinj (List.nodup_range' 0 _)
  · intro lv hlv
    by_cases h2 : pipeline.layers.any (fun l => l.level == layerLevel) = true
    · rw [handleBatchAddConfirm_layers_append uuid credIds modelIds pipeline layerLevel hne h2]
      rw [List.find?_map]
      have hcomp : ((fun l : Layer => l.level == lv) ∘ fun layer =>
          if layer.level ≠ layerLevel then layer
          else { layer with
              targets := layer.targets
                ++ mkBatchTargets uuid 0 (cartesianPairs credIds modelIds) })
          = fun l : Layer => l.level == lv := by
        funext layer
        by_cases hll : layer.level ≠ layerLevel
        · simp only [Function.comp_apply, if_pos hll]
        · simp only [Function.comp_apply, if_neg hll]
      rw [hcomp]
      rcases hfind : pipeline.layers.find? (fun l => l.level == lv) with _ | L0
      · rw [hfind]
        rfl
      · rw [hfind]
        have hp0 : L0.level = lv := by
          simpa using List.find?_some (p := fun l : Layer => l.level == lv) hfind
        have : (if L0.level ≠ layerLevel then L0
            else { L0 with
                targets := L0.targets
                  ++ mkBatchTargets uuid 0 (cartesianPairs credIds modelIds) }) = L0 := by
          rw [if_pos (hp0 ▸ hlv)]
        simp only [Option.map_some', this]
    · have h2' : pipeline.layers.any (fun l => l.level == layerLevel) = false :=
        Bool.not_eq_true _ ▸ eq_false_of_ne_true h2
      rw [handleBatchAddConfirm_layers_newLayer uuid credIds modelIds pipeline layerLevel
        hne h2']
      have hcount : ((pipeline.layers ++
          [({ level := layerLevel, strategy := "round-robin",
              targets := mkBatchTargets uuid 0 (cartesianPairs credIds modelIds) } : Layer)]).mergeSort
            (fun a b => decide (a.level ≤ b.level))).countP (fun l => l.level == lv) ≤ 1 := by
        rw [(List.mergeSort_perm _ _).countP_eq, List.countP_append]
        have hnew : List.countP (fun l : Layer => l.level == lv)
            [({ level := layerLevel, strategy := "round-robin",
                targets := mkBatchTargets uuid 0 (cartesianPairs credIds modelIds) } : Layer)] = 0 := by
          simp [List.countP_cons, Ne.symm hlv]
        rw [hnew]
        simpa using countP_level_le_one hnd lv
      rw [find?_eq_of_perm_of_countP_le_one (fun l : Layer => l.level == lv)
        (List.mergeSort_perm _ _) hcount]
      rw [List.find?_append]
      have hnewf : List.find? (fun l : Layer => l.level == lv)
          [({ level := layerLevel, strategy := "round-robin",
              targets := mkBatchTargets uuid 0 (cartesianPairs credIds modelIds) } : Layer)] = none := by
        rw [List.find?_singleton]
        simp [Ne.symm hlv]
      rw [hnewf, Option.or_none]
  · by_cases h2 : pipeline.layers.any (fun l => l.level == layerLevel) = true
    · rw [handleBatchAddConfirm_layers_append uuid credIds modelIds pipeline layerLevel hne h2]
      rw [List.find?_map]
      have hcomp : ((fun l : Layer => l.level == layerLevel) ∘ fun layer =>
          if layer.level ≠ layerLevel then layer
          else { layer with
              targets := layer.targets
                ++ mkBatchTargets uuid 0 (cartesianPairs credIds modelIds) })
          = fun l : Layer => l.level == layerLevel := by
        funext layer
        by_cases hll : layer.level ≠ layerLevel
        · simp only [Function.comp_apply, if_pos hll]
        · simp only [Function.comp_apply, if_neg hll]
      rw [hcomp]
      obtain ⟨x, hx, hpx⟩ := List.any_eq_true.mp h2
      have hsome : (pipeline.layers.find? (fun l => l.level == layerLevel)).isSome = true :=
        List.find?_isSome.mpr ⟨x, hx, hpx⟩
      rcases hfind : pipeline.layers.find? (fun l => l.level == layerLevel) with _ | L0
      · exact absurd hpx (List.find?_eq_none.mp hfind x hx)
      · rw [hfind]
        have hp0 : L0.level = layerLevel := by
          simpa using List.find?_some (p := fun l : Layer => l.level == layerLevel) hfind
        have hL0 : (if L0.level ≠ layerLevel then L0
            else { L0 with
                targets := L0.targets
                  ++ mkBatchTargets uuid 0 (cartesianPairs credIds modelIds) })
            = { L0 with
                targets := L0.targets
                  ++ mkBatchTargets uuid 0 (cartesianPairs credIds modelIds) } := by
          rw [if_neg (fun hcon => hcon hp0)]
        simp only [Option.map_some', hL0, Option.getD_some]
    · have h2' : pipeline.layers.any (fun l => l.level == layerLevel) = false :=
        Bool.not_eq_true _ ▸ eq_false_of_ne_true h2
      rw [handleBatchAddConfirm_layers_newLayer uuid credIds modelIds pipeline layerLevel
        hne h2']
      have hnone : pipeline.layers.find? (fun l => l.level == layerLevel) = none := by
        rw [List.find?_eq_none]
        intro x hx
        exact (List.any_eq_false.mp h2') x hx
      have hcount : ((pipeline.layers ++
          [({ level := layerLevel, strategy := "round-robin",
              targets := mkBatchTargets uuid 0 (cartesianPairs credIds modelIds) } : Layer)]).mergeSort
            (fun a b => decide (a.level ≤ b.level))).countP
            (fun l => l.level == layerLevel) ≤ 1 := by
        rw [(List.mergeSort_perm _ _).countP_eq, List.countP_append]
        have h0 : pipeline.layers.countP (fun l => l.level == layerLevel) = 0 := by
          rw [List.countP_eq_zero]
          exact List.any_eq_false.mp h2'
        rw [h0]
        simp [List.countP_cons]
      rw [find?_eq_of_perm_of_countP_le_one (fun l : Layer => l.level == layerLevel)
        (List.mergeSort_perm _ _) hcount]
      rw [List.find?_append, hnone]
      simp [List.find?, hnone]

theorem demoUuid_injective : Function.Injective demoUuid := by
  intro a b h
  have := congrArg (fun s => s.data.length) h
  simpa [demoUuid] using this

/-- Witness for the C6 theorem: adding the 2 × 1 cartesian product of
credentials ["c1","c9"] and model ["m9"] at level 2 of the demo pipeline
yields 2 targets with distinct ids, enabled, weight 1, appended to layer
level 2, with layer level 1's targets untouched. -/
theorem handleBatchAddConfirm_cartesian_appends_witness :
    (mkBatchTargets demoUuid 0 (cartesianPairs ["c1", "c9"] ["m9"])).length = 2 * 1 ∧
    ((mkBatchTargets demoUuid 0 (cartesianPairs ["c1", "c9"] ["m9"])).map Target.id).Nodup ∧
    (mkBatchTargets demoUuid 0 (cartesianPairs ["c1", "c9"] ["m9"])).all
      (fun t => t.enabled && (t.effectiveWeight == 1)) = true ∧
    ((handleBatchAddConfirm demoUuid ["c1", "c9"] ["m9"] demoCartPipeline 2).layers.find?
        (fun l => l.level == 1)).map Layer.targets
      = (demoCartPipeline.layers.find? (fun l => l.level == 1)).map Layer.targets ∧
    ((handleBatchAddConfirm demoUuid ["c1", "c9"] ["m9"] demoCartPipeline 2).layers.find?
        (fun l => l.level == 2)).map Layer.targets
      = some ((((demoCartPipeline.layers.find? (fun l => l.level == 2)).map
            Layer.targets).getD [])
          ++ mkBatchTargets demoUuid 0 (cartesianPairs ["c1", "c9"] ["m9"])) := by
  have h := handleBatchAddConfirm_cartesian_appends demoUuid ["c1", "c9"] ["m9"]
    demoCartPipeline 2 demoUuid_injective (by decide) (by decide) (by decide)
  exact ⟨h.1, h.2.1, h.2.2.1, h.2.2.2.1 1 (by decide), h.2.2.2.2⟩

theorem filterMap_getElem_range {α β : Type _} (l : List α) (f : α → Option β) :
    (List.range l.length).filterMap (fun i => (l[i]?).bind f) = l.filterMap f := by
  induction l with
  | nil => rfl
  | cons a t ih =>
    rw [List.length_cons, List.range_succ_eq_map]
    simp only [List.filterMap_cons, List.getElem?_cons_zero, Option.some_bind]
    rw [List.filterMap_map]
    have hcomp : ((fun i => ((a :: t)[i]?).bind f) ∘ Nat.succ)
        = fun i => (t[i]?).bind f := by
      funext i
      simp [List.getElem?_cons_succ]
    rw [hcomp, ih]

/-- C3: for every credential list, every behaviour of the per-item probe
call (models returned, empty or missing model list, thrown exception) and
every completion order, a scheduler run of `handleCheckAllCredentials`
lands exactly one `(id, status)` update per non-disabled credential — the
run's updates are a permutation of one per-item update, with status
`success` or `error` computed from that item's outcome alone — so an
exception on one item never prevents the remaining items from being
processed, and `count(results) = count(items)`. -/
theorem handleCheckAllCredentials_one_result_per_item
    (credentials : List CredentialInfo) (probe : CredentialInfo → GetCredentialOutcome)
    (order : List Nat)
    (horder : order.Perm (List.range (nonDisabledCreds credentials).length)) :
    (checkRunResults (nonDisabledCreds credentials) probe order).Perm
      ((nonDisabledCreds credentials).map
        (fun c => (c.id, credentialCheckStatus (probe c)))) ∧
    (checkRunResults (nonDisabledCreds credentials) probe order).length
      = (nonDisabledCreds credentials).length := by
  have hperm : (checkRunResults (nonDisabledCreds credentials) probe order).Perm
      ((nonDisabledCreds credentials).map
        (fun c => (c.id, credentialCheckStatus (probe c)))) := by
    have hfun : (fun i : Nat => ((nonDisabledCreds credentials)[i]?).map fun c =>
        (c.id, credentialCheckStatus (probe c)))
        = fun i : Nat => ((nonDisabledCreds credentials)[i]?).bind fun c =>
          some (c.id, credentialCheckStatus (probe c)) := by
      funext i
      cases (nonDisabledCreds credentials)[i]? <;> rfl
    have h3 : (nonDisabledCreds credentials).filterMap
        (fun c => some (c.id, credentialCheckStatus (probe c)))
        = (nonDisabledCreds credentials).map
          (fun c => (c.id, credentialCheckStatus (probe c))) := by
      rw [show (fun c : CredentialInfo => some (c.id, credentialCheckStatus (probe c)))
          = some ∘ (fun c : CredentialInfo =>
            (c.id, credentialCheckStatus (probe c))) from rfl]
      rw [List.filterMap_eq_map]
    have h1 := horder.filterMap fun i : Nat =>
      ((nonDisabledCreds credentials)[i]?).bind fun c =>
        some (c.id, credentialCheckStatus (probe c))
    rw [filterMap_getElem_range (nonDisabledCreds credentials)
      (fun c => some (c.id, credentialCheckStatus (probe c))), h3] at h1
    unfold checkRunResults
    rw [hfun]
    exact h1
  exact ⟨hperm, by rw [hperm.length_eq, List.length_map]⟩

/-- Witness for the C3 theorem: with three non-disabled credentials, one
of which throws, and completion order [2,0,1], the run still lands
exactly one update per item (c1 success, c3 error, c4 error). -/
theorem handleCheckAllCredentials_one_result_per_item_witness :
    (checkRunResults (nonDisabledCreds demoCreds) demoProbe [2, 0, 1]).Perm
      ((nonDisabledCreds demoCreds).map
        (fun c => (c.id, credentialCheckStatus (demoProbe c)))) ∧
    (checkRunResults (nonDisabledCreds demoCreds) demoProbe [2, 0, 1]).length
      = (nonDisabledCreds demoCreds).length :=
  handleCheckAllCredentials_one_result_per_item demoCreds demoProbe [2, 0, 1] (by decide)

/-- Witness for the C4 theorem: moving layer 0 of the two-layer demo
pipeline to position 1 permutes the layer data, re-levels to `[1, 2]`, and
puts the moved layer's data at position 1. -/
theorem finishLayerDrag_permutes_and_reindexes_witness :
    ((finishLayerDrag demoTwoLayers 0 1).map layerData).Perm (demoTwoLayers.map layerData) ∧
    (finishLayerDrag demoTwoLayers 0 1).map Layer.level = List.range' 1 demoTwoLayers.length ∧
    ((finishLayerDrag demoTwoLayers 0 1)[1]?).map layerData
      = some (layerData demoTwoLayers[0]) :=
  finishLayerDrag_permutes_and_reindexes demoTwoLayers 0 1 (by decide) (by decide) (by decide)

/-- Witness for the C2 amended theorem: moving target A from layer 0 to
position 1 of layer 1 and then moving it back restores the original
two-layer pipeline. -/
theorem reorderTargets_cross_layer_involution_witness :
    reorderTargets (reorderTargets demoTwoLayers ⟨0, 0⟩ ⟨1, 1⟩) ⟨1, 1⟩ ⟨0, 0⟩ = demoTwoLayers :=
  reorderTargets_cross_layer_involution demoTwoLayers ⟨0, 0⟩ ⟨1, 1⟩
    (by decide) (by decide) (by decide) (by decide) (by decide)

theorem runPipelineWalk_false_tracker (select : List Target → Option Target)
    (probe : Target → AttemptOutcome) (credStatus : String → CredentialStatus)
    (now base maxCd : Nat) (layers : List Layer) (tr : Tracker) :
    (runPipelineWalk false select probe credStatus now base maxCd layers tr).2.1 = tr := by
  induction layers generalizing tr with
  | nil => rfl
  | cons layer rest ih =>
    unfold runPipelineWalk
    rcases hsel : select (layer.targets.filter fun t =>
      t.enabled && (credStatus t.credential_id == CredentialStatus.ok)) with _ | t
    · simp only [hsel]
      exact ih tr
    · simp only [hsel]
      rcases hout : (probe t).success with _ | _
      · simp only [hout, Bool.false_eq_true, if_false]
        exact ih tr
      · simp only [hout, if_true]
        rfl

/-- C9: a simulation run returns the Target Runtime State map exactly as
it received it — no field of any target's runtime state is changed by
`simulate`, for every route pipeline, tracker state, strategy selection,
probe behaviour and credential status. -/
theorem simulateRoute_does_not_mutate_runtime_state
    (select : List Target → Option Target) (probe : Target → AttemptOutcome)
    (credStatus : String → CredentialStatus) (now base maxCd : Nat)
    (p : Pipeline) (tr : Tracker) :
    (simulateRoute select probe credStatus now base maxCd p tr).2.1 = tr :=
  runPipelineWalk_false_tracker select probe credStatus now base maxCd _ tr

theorem copyLayerObjs_next (h : Heap) (ls : List LayerObj) :
    h.next ≤ (copyLayerObjs h ls).1.next := by
  induction ls generalizing h with
  | nil => exact Nat.le_refl _
  | cons l t ih =>
    have := ih (h.allocTargets (h.targetMem l.targetsRef))
    simp only [copyLayerObjs]
    exact Nat.le_trans (Nat.le_succ _) this

theorem copyLayerObjs_targetMem (h : Heap) (ls : List LayerObj) (r : Nat)
    (hr : r < h.next) :
    (copyLayerObjs h ls).1.targetMem r = h.targetMem r := by
  induction ls generalizing h with
  | nil => rfl
  | cons l t ih =>
    simp only [copyLayerObjs]
    rw [ih (h.allocTargets (h.targetMem l.targetsRef)) (Nat.lt_succ_of_lt hr)]
    simp only [Heap.allocTargets]
    rw [if_neg (Nat.ne_of_lt hr)]

theorem copyLayerObjs_layerMem (h : Heap) (ls : List LayerObj) :
    (copyLayerObjs h ls).1.layerMem = h.layerMem := by
  induction ls generalizing h with
  | nil => rfl
  | cons l t ih =>
    simp only [copyLayerObjs]
    rw [ih (h.allocTargets (h.targetMem l.targetsRef))]
    rfl

theorem copyLayerObjs_fresh (h : Heap) (ls : List LayerObj) :
    ∀ l ∈ (copyLayerObjs h ls).2, h.next ≤ l.targetsRef := by
  induction ls generalizing h with
  | nil => intro l hl; cases hl
  | cons a t ih =>
    intro l hl
    simp only [copyLayerObjs, List.mem_cons] at hl
    rcases hl with hl | hl
    · rw [hl]
    · exact Nat.le_trans (Nat.le_succ _)
        (ih (h.allocTargets (h.targetMem a.targetsRef)) l hl)

/-- C8: the pipeline-editing operations mutate no pre-existing array.
For every heap, both the heap-level target move and the heap-level layer
move leave the contents of every previously allocated array reference —
the input pipeline's layer array and every layer's target array included —
exactly as they were; as results they hand back either the untouched
input reference (the no-op and failure paths) or a freshly allocated
array. -/
theorem editor_ops_mutate_no_existing_array (h : Heap) (layersRef : Nat)
    (src dst : TargetDropPos) (srcIdx dstIdx : Nat) (r : Nat) (hr : r < h.next) :
    ((reorderTargetsH h layersRef src dst).1.targetMem r = h.targetMem r ∧
     (reorderTargetsH h layersRef src dst).1.layerMem r = h.layerMem r ∧
     ((reorderTargetsH h layersRef src dst).2 = layersRef ∨
       h.next ≤ (reorderTargetsH h layersRef src dst).2)) ∧
    ((finishLayerDragH h layersRef srcIdx dstIdx).1.targetMem r = h.targetMem r ∧
     (finishLayerDragH h layersRef srcIdx dstIdx).1.layerMem r = h.layerMem r ∧
     ((finishLayerDragH h layersRef srcIdx dstIdx).2 = layersRef ∨
       h.next ≤ (finishLayerDragH h layersRef srcIdx dstIdx).2)) := by
  constructor
  · unfold reorderTargetsH
    split
    · exact ⟨rfl, rfl, Or.inl rfl⟩
    set h1 := (copyLayerObjs h (h.layerMem layersRef)).1 with hh1
    set result := (copyLayerObjs h (h.layerMem layersRef)).2 with hres
    have hle1 : h.next ≤ h1.next := copyLayerObjs_next h _
    have hrlt1 : r < h1.next := Nat.lt_of_lt_of_le hr hle1
    have htm1 : h1.targetMem r = h.targetMem r := copyLayerObjs_targetMem h _ r hr
    have hlm1 : h1.layerMem = h.layerMem := copyLayerObjs_layerMem h _
    have htm2 : (h1.allocLayers result).targetMem r = h.targetMem r := htm1
    have hlm2 : (h1.allocLayers result).layerMem r = h.layerMem r := by
      simp only [Heap.allocLayers]
      rw [if_neg (Nat.ne_of_lt hrlt1), hlm1]
    rcases hgs : result[src.layerIdx]? with _ | srcLayer
    · simp only [hgs]
      exact ⟨htm2, hlm2, by simp⟩
    rcases hgd : result[dst.layerIdx]? with _ | dstLayer
    · simp only [hgs, hgd]
      exact ⟨htm2, hlm2, by simp⟩
    have hsrcFresh : h.next ≤ srcLayer.targetsRef :=
      copyLayerObjs_fresh h _ srcLayer
        (List.getElem?_mem (hres ▸ hgs))
    have hdstFresh : h.next ≤ dstLayer.targetsRef :=
      copyLayerObjs_fresh h _ dstLayer
        (List.getElem?_mem (hres ▸ hgd))
    rcases hit : ((h1.allocLayers result).targetMem srcLayer.targetsRef)[src.targetIdx]?
      with _ | item
    · simp only [hgs, hgd, hit]
      exact ⟨htm2, hlm2, by simp⟩
    simp only [hgs, hgd, hit]
    refine ⟨?_, hlm2, Or.inr hle1⟩
    simp only [Heap.writeTargets]
    rw [if_neg (Nat.ne_of_lt (Nat.lt_of_lt_of_le hr hdstFresh)),
      if_neg (Nat.ne_of_lt (Nat.lt_of_lt_of_le hr hsrcFresh))]
    exact htm2
  · unfold finishLayerDragH
    rcases hg : (h.layerMem layersRef)[srcIdx]? with _ | moved
    · simp [hg]
    simp only [hg]
    refine ⟨rfl, ?_, Or.inr (Nat.le_refl _)⟩
    simp only [Heap.allocLayers]
    rw [if_neg (Nat.ne_of_lt hr)]

/-- Witness for the C8 theorem: on a concrete two-reference heap (target
array at 0, layer array at 1), both operations leave the pre-existing
arrays at reference 0 untouched and return the input reference or a fresh
one. -/
theorem editor_ops_mutate_no_existing_array_witness :
    ((reorderTargetsH demoHeap 1 ⟨0, 0⟩ ⟨0, 1⟩).1.targetMem 0 = demoHeap.targetMem 0 ∧
     (reorderTargetsH demoHeap 1 ⟨0, 0⟩ ⟨0, 1⟩).1.layerMem 0 = demoHeap.layerMem 0 ∧
     ((reorderTargetsH demoHeap 1 ⟨0, 0⟩ ⟨0, 1⟩).2 = 1 ∨
       demoHeap.next ≤ (reorderTargetsH demoHeap 1 ⟨0, 0⟩ ⟨0, 1⟩).2)) ∧
    ((finishLayerDragH demoHeap 1 0 0).1.targetMem 0 = demoHeap.targetMem 0 ∧
     (finishLayerDragH demoHeap 1 0 0).1.layerMem 0 = demoHeap.layerMem 0 ∧
     ((finishLayerDragH demoHeap 1 0 0).2 = 1 ∨
       demoHeap.next ≤ (finishLayerDragH demoHeap 1 0 0).2)) :=
  editor_ops_mutate_no_existing_array demoHeap 1 ⟨0, 0⟩ ⟨0, 1⟩ 0 0 0 (by decide)
